import Mathlib

/-!
Verification of `twitter-json-to-xml`: a shallow embedding of
`src/TweetCollection.py` and `src/word_count.py` in Lean 4, with theorems
about the claims of the specification.

Modelling conventions:
* A Python dict access `d["k"]` on a possibly-missing key is modelled by an
  `Option` field together with `getKey`, which raises `PyErr.keyError` when
  the field is absent, as CPython does.
* Fallible computations live in `Except PyErr`; `ebind` is the explicit
  monadic bind (an uncaught Python exception propagates to the caller).
* The JSON reader (`json_reader`) yields one parse result per input line;
  the parse itself is performed by the `json` library, so a line is modelled
  as `Except PyErr Tweet`: `.error .parseError` for a line `json.loads`
  rejects, `.ok t` for a parsed record.
* lxml `Element` values are modelled by the `Xml` inductive: a tag, an
  attribute list in insertion order, optional text, and a child list.
* The output file at the target path is modelled as an `Option Xml`
  (`none` = no file): `write_xml` returns the new file state, since the
  only write happens at the very end of a successful run.
-/

/-- Python exception classes that the scripts can raise. -/
inductive PyErr : Type where
  | keyError
  | valueError
  | parseError
  | attributeError
deriving DecidableEq

instance {ε α : Type} [DecidableEq ε] [DecidableEq α] : DecidableEq (Except ε α) := fun x y =>
  match x, y with
  | .ok a, .ok b => if h : a = b then isTrue (by rw [h]) else isFalse (by simp [h])
  | .error e, .error f => if h : e = f then isTrue (by rw [h]) else isFalse (by simp [h])
  | .ok _, .error _ => isFalse (by simp)
  | .error _, .ok _ => isFalse (by simp)

/-- `d["k"]` on a modelled dict field: `KeyError` when the key is absent. -/
def getKey {α : Type} : Option α → Except PyErr α
  | some a => .ok a
  | none => .error .keyError

/-- Explicit bind for `Except PyErr`: an exception propagates outward. -/
def ebind {α β : Type} (x : Except PyErr α) (f : α → Except PyErr β) : Except PyErr β :=
  match x with
  | .error e => .error e
  | .ok a => f a

theorem ebind_ok {α β : Type} (a : α) (f : α → Except PyErr β) : ebind (.ok a) f = f a := rfl

theorem ebind_err {α β : Type} (e : PyErr) (f : α → Except PyErr β) :
    ebind (.error e) f = .error e := rfl

theorem getKey_some {α : Type} (a : α) : getKey (some a) = .ok a := rfl

theorem getKey_none {α : Type} : getKey (none : Option α) = .error .keyError := rfl

/-- The `"user"` sub-object of a tweet record (also a `user_mentions` entry). -/
structure TUser : Type where
  screen_name : Option String
  id_str : Option String

/-- An entry of `entities["hashtags"]`. -/
structure THashtag : Type where
  text : Option String

/-- An entry of `entities["urls"]`. -/
structure TUrl : Type where
  expanded_url : Option String

/-- The `"entities"` sub-object of a tweet record. -/
structure TEntities : Type where
  hashtags : Option (List THashtag)
  user_mentions : Option (List TUser)
  urls : Option (List TUrl)

/-- The `"extended_tweet"` sub-object of a truncated tweet record. -/
structure TExtended : Type where
  full_text : Option String
  entities : Option TEntities

/-- A raw tweet record parsed from one JSON line.  Fields, in order:
`id`, `id_str`, `created_at`, `text`, `truncated`, `extended_tweet`,
`retweeted_status`, `quoted_status`, `user`, `entities`.  Every field is
optional: absence of a key is significant for the scripts. -/
inductive Tweet : Type where
  | mk : Option Int → Option String → Option String → Option String → Option Bool →
         Option TExtended → Option Tweet → Option Tweet → Option TUser →
         Option TEntities → Tweet

def Tweet.id : Tweet → Option Int
  | .mk i _ _ _ _ _ _ _ _ _ => i

def Tweet.id_str : Tweet → Option String
  | .mk _ s _ _ _ _ _ _ _ _ => s

def Tweet.created_at : Tweet → Option String
  | .mk _ _ c _ _ _ _ _ _ _ => c

def Tweet.text : Tweet → Option String
  | .mk _ _ _ tx _ _ _ _ _ _ => tx

def Tweet.truncated : Tweet → Option Bool
  | .mk _ _ _ _ tr _ _ _ _ _ => tr

def Tweet.extended_tweet : Tweet → Option TExtended
  | .mk _ _ _ _ _ ex _ _ _ _ => ex

def Tweet.retweeted_status : Tweet → Option Tweet
  | .mk _ _ _ _ _ _ rt _ _ _ => rt

def Tweet.quoted_status : Tweet → Option Tweet
  | .mk _ _ _ _ _ _ _ q _ _ => q

def Tweet.user : Tweet → Option TUser
  | .mk _ _ _ _ _ _ _ _ u _ => u

def Tweet.entities : Tweet → Option TEntities
  | .mk _ _ _ _ _ _ _ _ _ en => en

theorem Tweet.sizeOf_lt_of_retweeted {t r : Tweet} (h : t.retweeted_status = some r) :
    sizeOf r < sizeOf t := by
  cases t with
  | mk a b c d e f g q u en =>
    simp [Tweet.retweeted_status] at h
    subst h
    simp
    omega

theorem Tweet.sizeOf_lt_of_quoted {t q : Tweet} (h : t.quoted_status = some q) :
    sizeOf q < sizeOf t := by
  cases t with
  | mk a b c d e f g q' u en =>
    simp [Tweet.quoted_status] at h
    subst h
    simp
    omega

/-- An lxml element: tag, attributes in insertion order, text, children. -/
inductive Xml : Type where
  | elem (tag : String) (attrs : List (String × String)) (text : Option String)
         (children : List Xml)

def Xml.tag : Xml → String
  | .elem t _ _ _ => t

def Xml.attrs : Xml → List (String × String)
  | .elem _ a _ _ => a

def Xml.text : Xml → Option String
  | .elem _ _ tx _ => tx

def Xml.children : Xml → List Xml
  | .elem _ _ _ c => c

/-- `elem.set(k, v)` on the attribute list: replace an existing key in
place, otherwise append at the end (lxml semantics). -/
def attrSet : List (String × String) → String → String → List (String × String)
  | [], k, v => [(k, v)]
  | (k', v') :: rest, k, v =>
      if k' = k then (k, v) :: rest else (k', v') :: attrSet rest k v

/-- `elem.attrib[k]` as an optional lookup (first match wins). -/
def attrGet : List (String × String) → String → Option String
  | [], _ => none
  | (k', v') :: rest, k => if k' = k then some v' else attrGet rest k

/-- `elem.set(k, v)` on an element. -/
def Xml.set (x : Xml) (k v : String) : Xml :=
  match x with
  | .elem t a tx c => .elem t (attrSet a k v) tx c

/-- `parent.append(child)` / `etree.SubElement(parent, tag)`. -/
def Xml.appendChild (x : Xml) (child : Xml) : Xml :=
  match x with
  | .elem t a tx c => .elem t a tx (c ++ [child])

/-- Map a fallible step over a list, stopping at the first raised error
(models a Python loop whose body may raise). -/
def emapList {α β : Type} (f : α → Except PyErr β) : List α → Except PyErr (List β)
  | [] => .ok []
  | a :: rest =>
      ebind (f a) fun b =>
      ebind (emapList f rest) fun bs =>
      .ok (b :: bs)

/-- `str.split()` helper: accumulate the current token (reversed) while
scanning; whitespace ends a token, empty tokens are dropped. -/
def splitWsAux : List Char → List Char → List String
  | [], cur => if cur.isEmpty then [] else [String.mk cur.reverse]
  | c :: rest, cur =>
      if c.isWhitespace then
        (if cur.isEmpty then [] else [String.mk cur.reverse]) ++ splitWsAux rest []
      else
        splitWsAux rest (c :: cur)

/-- Python `str.split()` with no separator: split on runs of whitespace,
discarding empty tokens and leading/trailing whitespace. -/
def splitWs (s : String) : List String :=
  splitWsAux s.toList []

/-- The six datetime fields `datetime.strptime` extracts from the tweet
format, plus the UTC offset in seconds (`%z`). -/
structure PyDateTime : Type where
  year : Nat
  month : Nat
  day : Nat
  hour : Nat
  minute : Nat
  second : Nat
  offsetSeconds : Int
deriving DecidableEq

def digitVal (c : Char) : Option Nat :=
  if c.isDigit then some (c.toNat - 48) else none

/-- Greedily read one or two decimal digits (the `%d`/`%H`/`%M`/`%S`
patterns of CPython `_strptime` accept one or two digits, longest first). -/
def parse12 : List Char → Option (Nat × List Char)
  | [] => none
  | [c1] =>
      match digitVal c1 with
      | some d1 => some (d1, [])
      | none => none
  | c1 :: c2 :: rest =>
      match digitVal c1, digitVal c2 with
      | some d1, some d2 => some (d1 * 10 + d2, rest)
      | some d1, none => some (d1, c2 :: rest)
      | none, _ => none

/-- Read exactly four decimal digits (the `%Y` pattern). -/
def parse4 : List Char → Option (Nat × List Char)
  | c1 :: c2 :: c3 :: c4 :: rest =>
      match digitVal c1, digitVal c2, digitVal c3, digitVal c4 with
      | some d1, some d2, some d3, some d4 =>
          some (((d1 * 10 + d2) * 10 + d3) * 10 + d4, rest)
      | _, _, _, _ => none
  | _ => none

/-- Whitespace in a `strptime` format matches one or more whitespace
characters in the data. -/
def parseSpaces : List Char → Option (List Char)
  | c :: rest =>
      if c.isWhitespace then some (rest.dropWhile Char.isWhitespace) else none
  | [] => none

/-- Case-insensitive match of a three-letter abbreviation against a name
list; returns the zero-based index (CPython matches locale day/month
abbreviations case-insensitively). -/
def parseAbbrev (names : List String) : List Char → Option (Nat × List Char)
  | c1 :: c2 :: c3 :: rest =>
      let w := String.mk [c1.toLower, c2.toLower, c3.toLower]
      match names.indexOf? w with
      | some i => some (i, rest)
      | none => none
  | _ => none

def weekdayAbbrevs : List String := ["mon", "tue", "wed", "thu", "fri", "sat", "sun"]

def monthAbbrevs : List String :=
  ["jan", "feb", "mar", "apr", "may", "jun", "jul", "aug", "sep", "oct", "nov", "dec"]

/-- The `%z` pattern: a sign, two hour digits, an optional colon, two
minute digits (or the literal `Z` for UTC); the resulting offset must be a
valid `datetime.timezone` offset. -/
def parseTzOffset : List Char → Option (Int × List Char)
  | 'Z' :: rest => some (0, rest)
  | sign :: rest =>
      if sign = '+' ∨ sign = '-' then
        match parse12 rest with
        | some (hh, rest1) =>
            let rest2 := match rest1 with
              | ':' :: r => r
              | r => r
            match parse12 rest2 with
            | some (mm, rest3) =>
                if hh ≤ 23 ∧ mm ≤ 59 then
                  let secs : Int := (hh * 3600 + mm * 60 : Nat)
                  some (if sign = '-' then -secs else secs, rest3)
                else none
            | none => none
        | none => none
      else none
  | [] => none

def isLeapYear (y : Nat) : Bool :=
  y % 4 = 0 && (y % 100 ≠ 0 || y % 400 = 0)

def daysInMonth (y m : Nat) : Nat :=
  if m = 2 then (if isLeapYear y then 29 else 28)
  else if m = 4 ∨ m = 6 ∨ m = 9 ∨ m = 11 then 30
  else 31

/-- Days from 1970-01-01 of a proleptic-Gregorian civil date
(Howard Hinnant's `days_from_civil`, specialised to `y ≥ 1`). -/
def daysFromCivil (y m d : Nat) : Int :=
  let yAdj := if m ≤ 2 then y - 1 else y
  let era := yAdj / 400
  let yoe := yAdj % 400
  let mp := if m > 2 then m - 3 else m + 9
  let doy := (153 * mp + 2) / 5 + (d - 1)
  let doe := yoe * 365 + yoe / 4 - yoe / 100 + doy
  (era * 146097 + doe : Int) - 719468

/-- The comparison key of a timezone-aware `datetime`: Python compares
aware datetimes by their UTC instant, here seconds relative to the epoch. -/
def PyDateTime.utcKey (dt : PyDateTime) : Int :=
  daysFromCivil dt.year dt.month dt.day * 86400 +
    (dt.hour * 3600 + dt.minute * 60 + dt.second : Nat) - dt.offsetSeconds

/-- `datetime.strptime(s, "%a %b %d %H:%M:%S %z %Y")` on the character
list: weekday abbreviation, month abbreviation, day, `HH:MM:SS`, UTC
offset, four-digit year, then the `datetime` range validation. -/
def strptimeTweetChars (l : List Char) : Option PyDateTime := do
  let (_, l) ← parseAbbrev weekdayAbbrevs l
  let l ← parseSpaces l
  let (m0, l) ← parseAbbrev monthAbbrevs l
  let l ← parseSpaces l
  let (d, l) ← parse12 l
  let l ← parseSpaces l
  let (hh, l) ← parse12 l
  let l ← match l with
    | ':' :: r => some r
    | _ => none
  let (mi, l) ← parse12 l
  let l ← match l with
    | ':' :: r => some r
    | _ => none
  let (ss, l) ← parse12 l
  let l ← parseSpaces l
  let (off, l) ← parseTzOffset l
  let l ← parseSpaces l
  let (y, l) ← parse4 l
  if l = [] ∧ 1 ≤ y ∧ 1 ≤ d ∧ d ≤ daysInMonth y (m0 + 1) ∧ hh ≤ 23 ∧ mi ≤ 59 ∧ ss ≤ 59 then
    pure ⟨y, m0 + 1, d, hh, mi, ss, off⟩
  else
    none

/-- `datetime.strptime(s, "%a %b %d %H:%M:%S %z %Y")`: a failed parse
raises `ValueError`. -/
def strptimeTweet (s : String) : Except PyErr PyDateTime :=
  match strptimeTweetChars s.toList with
  | some dt => .ok dt
  | none => .error .valueError

/-- `add_user(parent, user_dict)` (TweetCollection.py lines 82-91), as the
constructed `<user>` child: `SubElement` then `set("screen_name", ...)`,
`set("id", ...)`; the call sites append it to the parent. -/
def add_user (user_dict : TUser) : Except PyErr Xml :=
  ebind (getKey user_dict.screen_name) fun sn =>
  ebind (getKey user_dict.id_str) fun uid =>
  .ok (((Xml.elem "user" [] none []).set "screen_name" sn).set "id" uid)

/-- `add_details(parent, tweet_dict)` (lines 93-127), as the constructed
`<details>` child: the author `<user>`, the truncation-selected entities
dict, then `<hashtag>` elements, the `<user_mentions>` container, and
`<url>` elements, in source order. -/
def add_details (tweet_dict : Tweet) : Except PyErr Xml :=
  ebind (getKey tweet_dict.user) fun u =>
  ebind (add_user u) fun userElem =>
  ebind (getKey tweet_dict.truncated) fun tr =>
  ebind (if tr then
           ebind (getKey tweet_dict.extended_tweet) fun ex => getKey ex.entities
         else getKey tweet_dict.entities) fun entities_dict =>
  ebind (getKey entities_dict.hashtags) fun hs =>
  ebind (emapList (fun h =>
           ebind (getKey h.text) fun htext =>
           .ok (Xml.elem "hashtag" [] (some htext) [])) hs) fun hashtagElems =>
  ebind (getKey entities_dict.user_mentions) fun ms =>
  ebind (emapList add_user ms) fun mentionUsers =>
  ebind (getKey entities_dict.urls) fun us =>
  ebind (emapList (fun url =>
           ebind (getKey url.expanded_url) fun eu =>
           .ok (Xml.elem "url" [] (some eu) [])) us) fun urlElems =>
  .ok (Xml.elem "details" [] none
        ([userElem] ++ hashtagElems ++
         [Xml.elem "user_mentions" [] none mentionUsers] ++ urlElems))

/-- Lines 71-77 of `add_tweet`: the effective body text — the extended
full text when `truncated` is truthy, the top-level text otherwise. -/
def tweetText (tweet_dict : Tweet) : Except PyErr String :=
  ebind (getKey tweet_dict.truncated) fun tr =>
  if tr then
    ebind (getKey tweet_dict.extended_tweet) fun ex => getKey ex.full_text
  else
    getKey tweet_dict.text

/-- The per-build mutable state of `TweetCollection` that `add_tweet`
touches: `self.tweet_ids` (a Python `set`, modelled as a list queried only
through membership, with fresh ids pushed at the front) and
`self.output_tweets`. -/
structure BuildState : Type where
  tweet_ids : List Int
  output_tweets : List Xml

/-- `add_tweet(tweet_dict)` (lines 37-80).  Order of effects follows the
source: the duplicate check on `tweet_dict["id"]`, insertion into the
seen-id set before any recursion, the retweet branch, then element
construction (`id`, `created_at`, the quote branch with its recursion, the
body, the details).  The source appends the new element to
`self.output_tweets` (line 60) before the quote recursion appends the
quoted post's elements; this pure version reproduces the same final list
by running the recursion on an empty accumulator and splicing its output
after the new element. -/
def add_tweet (s : BuildState) (tweet_dict : Tweet) : Except PyErr BuildState :=
  ebind (getKey tweet_dict.id) fun i =>
  if i ∈ s.tweet_ids then
    .ok s
  else
    let s1 : BuildState := ⟨i :: s.tweet_ids, s.output_tweets⟩
    match hrt : tweet_dict.retweeted_status with
    | some rt => add_tweet s1 rt
    | none =>
      ebind (getKey tweet_dict.id_str) fun idStr =>
      ebind (getKey tweet_dict.created_at) fun ca =>
      let e0 := ((Xml.elem "tweet" [] none []).set "id" idStr).set "created_at" ca
      match hq : tweet_dict.quoted_status with
      | some q =>
        ebind (getKey q.id_str) fun qid =>
        ebind (add_tweet ⟨s1.tweet_ids, []⟩ q) fun s2 =>
        ebind (tweetText tweet_dict) fun btxt =>
        ebind (add_details tweet_dict) fun det =>
        .ok ⟨s2.tweet_ids,
             s1.output_tweets ++
               [((e0.set "quoted_from" qid).appendChild
                   (Xml.elem "body" [] (some btxt) [])).appendChild det] ++
               s2.output_tweets⟩
      | none =>
        ebind (tweetText tweet_dict) fun btxt =>
        ebind (add_details tweet_dict) fun det =>
        .ok ⟨s1.tweet_ids,
             s1.output_tweets ++
               [(e0.appendChild (Xml.elem "body" [] (some btxt) [])).appendChild det]⟩
termination_by sizeOf tweet_dict
decreasing_by
  · exact Tweet.sizeOf_lt_of_retweeted hrt
  · exact Tweet.sizeOf_lt_of_quoted hq

/-- The record loop of `write_xml` (lines 25-26): pull each line's parse
result from the generator (a `json.loads` failure raises there) and feed
it to `add_tweet`. -/
def processTweets (s : BuildState) : List (Except PyErr Tweet) → Except PyErr BuildState
  | [] => .ok s
  | line :: rest =>
      ebind line fun t =>
      ebind (add_tweet s t) fun s' =>
      processTweets s' rest

/-- The sort key of line 28:
`datetime.strptime(x.attrib["created_at"], "%a %b %d %H:%M:%S %z %Y")`,
as the UTC-instant comparison key; a missing attribute raises `KeyError`,
an unparsable value raises `ValueError`. -/
def sortKey (x : Xml) : Except PyErr Int :=
  ebind (match attrGet x.attrs "created_at" with
         | some v => .ok v
         | none => .error .keyError) fun ca =>
  ebind (strptimeTweet ca) fun dt =>
  .ok dt.utcKey

/-- `self.output_tweets.sort(key=...)` (line 28): CPython computes every
key before reordering (so a raising key leaves the list untouched and
aborts), then sorts stably by the key. -/
def sortTweets (l : List Xml) : Except PyErr (List Xml) :=
  ebind (emapList (fun x => ebind (sortKey x) fun k => .ok ((k, x) : Int × Xml)) l)
    fun keyed =>
  .ok ((List.insertionSort (fun a b : Int × Xml => a.1 ≤ b.1) keyed).map Prod.snd)

/-- The full instance state of a `TweetCollection`: the seen-id set, the
document root, the single-pass generator of parsed lines, and the
accumulation list (`__init__`, lines 12-16). -/
structure TCState : Type where
  tweet_ids : List Int
  xml_root : Xml
  parsed_tweets : List (Except PyErr Tweet)
  output_tweets : List Xml

/-- `TweetCollection(input_json)` (lines 12-16): empty seen-id set, a
fresh `<tweets>` root, the generator over the input lines, and an empty
accumulation list. -/
def tweetCollectionInit (input : List (Except PyErr Tweet)) : TCState :=
  { tweet_ids := []
    xml_root := Xml.elem "tweets" [] none []
    parsed_tweets := input
    output_tweets := [] }

/-- `write_xml(output)` (lines 18-35) together with the file it writes:
clear `self.output_tweets`, run every record through `add_tweet`, sort by
the parsed `created_at`, append the sorted elements to `self.xml_root`,
and only then serialize the root to the output path.  The result pairs the
new instance state (or the raised exception) with the file at the output
path, unchanged whenever an exception aborts the run before the write. -/
def write_xml (st : TCState) (file : Option Xml) : Except PyErr TCState × Option Xml :=
  match processTweets ⟨st.tweet_ids, []⟩ st.parsed_tweets with
  | .error e => (.error e, file)
  | .ok bs =>
    match sortTweets bs.output_tweets with
    | .error e => (.error e, file)
    | .ok sorted =>
      let root := sorted.foldl Xml.appendChild st.xml_root
      (.ok { tweet_ids := bs.tweet_ids
             xml_root := root
             parsed_tweets := []
             output_tweets := sorted }, some root)

/-- `tree.iter(tag)`: the element itself (when its tag matches) followed
by all matching descendants, in document order. -/
def Xml.iterTag (t : String) : Xml → List Xml
  | .elem tag a tx cs =>
      (if tag = t then [Xml.elem tag a tx cs] else []) ++
      (cs.attach.map (fun c => Xml.iterTag t c.1)).flatten
termination_by x => sizeOf x
decreasing_by
  have := List.sizeOf_lt_of_mem c.2
  simp
  omega

/-- `count_words(xml_tree)` (word_count.py lines 4-6): one count per
`<body>` element, `len(body.text.split())`; an element whose text is
absent (`None` in lxml) raises `AttributeError` from `None.split()`. -/
def count_words (xml_tree : Xml) : Except PyErr (List Nat) :=
  emapList (fun body =>
      match body.text with
      | none => .error .attributeError
      | some s => .ok (splitWs s).length)
    (xml_tree.iterTag "body")

/-- The module body of word_count.py (lines 9-11): parse the file and
print `sum(count_words(tree))`; modelled on the parsed tree. -/
def wordCountMain (tree : Xml) : Except PyErr Nat :=
  ebind (count_words tree) fun counts => .ok counts.sum

/-- Modelled from the spec (Word Aggregator contract): the sum over every
body node of the whitespace-token count of its text, where a body node
with absent or empty text contributes zero.  Stated separately from
`count_words` so the code can be compared against the spec's words. -/
def specWordTotal (tree : Xml) : Nat :=
  ((tree.iterTag "body").map (fun body =>
      match body.text with
      | none => 0
      | some s => (splitWs s).length)).sum

theorem add_tweet_seen {s : BuildState} {t : Tweet} {i : Int}
    (hid : t.id = some i) (hmem : i ∈ s.tweet_ids) : add_tweet s t = .ok s := by
  rw [add_tweet.eq_def, hid, getKey_some, ebind_ok, if_pos hmem]

theorem add_tweet_retweet {s : BuildState} {t rt : Tweet} {i : Int}
    (hid : t.id = some i) (hfresh : i ∉ s.tweet_ids) (hrt : t.retweeted_status = some rt) :
    add_tweet s t = add_tweet ⟨i :: s.tweet_ids, s.output_tweets⟩ rt := by
  rw [add_tweet.eq_def]
  simp only [hid, getKey_some, ebind_ok, if_neg hfresh]
  split
  case _ rt2 hrt2 => rw [hrt] at hrt2; cases hrt2; rfl
  case _ hnone => rw [hrt] at hnone; cases hnone

theorem tweet_elem_attrs (ids ca : String) :
    ((Xml.elem "tweet" [] none []).set "id" ids).set "created_at" ca =
      Xml.elem "tweet" [("id", ids), ("created_at", ca)] none [] := by
  simp [Xml.set, attrSet]

theorem tweet_elem_attrs_quoted (ids ca qid : String) :
    (((Xml.elem "tweet" [] none []).set "id" ids).set "created_at" ca).set "quoted_from" qid =
      Xml.elem "tweet" [("id", ids), ("created_at", ca), ("quoted_from", qid)] none [] := by
  simp [Xml.set, attrSet]

theorem add_tweet_plain {s : BuildState} {t : Tweet} {i : Int} {s' : BuildState}
    (hid : t.id = some i) (hfresh : i ∉ s.tweet_ids) (hrt : t.retweeted_status = none)
    (hq : t.quoted_status = none) (h : add_tweet s t = .ok s') :
    ∃ ids ca btxt det, t.id_str = some ids ∧ t.created_at = some ca ∧
      tweetText t = .ok btxt ∧ add_details t = .ok det ∧
      s' = ⟨i :: s.tweet_ids,
            s.output_tweets ++
              [Xml.elem "tweet" [("id", ids), ("created_at", ca)] none
                [Xml.elem "body" [] (some btxt) [], det]]⟩ := by
  rw [add_tweet.eq_def, hid, getKey_some, ebind_ok, if_neg hfresh] at h
  split at h
  case _ rt hrt2 => rw [hrt] at hrt2; cases hrt2
  case _ =>
    cases hids : t.id_str with
    | none => rw [hids, getKey_none, ebind_err] at h; cases h
    | some ids =>
      rw [hids, getKey_some, ebind_ok] at h
      cases hca : t.created_at with
      | none => rw [hca, getKey_none, ebind_err] at h; cases h
      | some ca =>
        rw [hca, getKey_some, ebind_ok] at h
        split at h
        case _ q hq2 => rw [hq] at hq2; cases hq2
        case _ =>
          cases htxt : tweetText t with
          | error e => rw [htxt, ebind_err] at h; cases h
          | ok btxt =>
            rw [htxt, ebind_ok] at h
            cases hdet : add_details t with
            | error e => rw [hdet, ebind_err] at h; cases h
            | ok det =>
              rw [hdet, ebind_ok] at h
              injection h with h'
              refine ⟨ids, ca, btxt, det, rfl, rfl, rfl, rfl, ?_⟩
              rw [← h', tweet_elem_attrs]
              rfl

theorem add_tweet_quoted {s : BuildState} {t q : Tweet} {i : Int} {s' : BuildState}
    (hid : t.id = some i) (hfresh : i ∉ s.tweet_ids) (hrt : t.retweeted_status = none)
    (hq : t.quoted_status = some q) (h : add_tweet s t = .ok s') :
    ∃ ids ca qid s2 btxt det, t.id_str = some ids ∧ t.created_at = some ca ∧
      q.id_str = some qid ∧ add_tweet ⟨i :: s.tweet_ids, []⟩ q = .ok s2 ∧
      tweetText t = .ok btxt ∧ add_details t = .ok det ∧
      s' = ⟨s2.tweet_ids,
            s.output_tweets ++
              [Xml.elem "tweet" [("id", ids), ("created_at", ca), ("quoted_from", qid)] none
                [Xml.elem "body" [] (some btxt) [], det]] ++
              s2.output_tweets⟩ := by
  rw [add_tweet.eq_def, hid, getKey_some, ebind_ok, if_neg hfresh] at h
  split at h
  case _ rt hrt2 => rw [hrt] at hrt2; cases hrt2
  case _ =>
    cases hids : t.id_str with
    | none => rw [hids, getKey_none, ebind_err] at h; cases h
    | some ids =>
      rw [hids, getKey_some, ebind_ok] at h
      cases hca : t.created_at with
      | none => rw [hca, getKey_none, ebind_err] at h; cases h
      | some ca =>
        rw [hca, getKey_some, ebind_ok] at h
        split at h
        case _ q2 hq2 =>
          rw [hq] at hq2
          injection hq2 with hq3
          subst hq3
          cases hqids : q.id_str with
          | none => rw [hqids, getKey_none, ebind_err] at h; cases h
          | some qid =>
            rw [hqids, getKey_some, ebind_ok] at h
            cases hrec : add_tweet ⟨i :: s.tweet_ids, []⟩ q with
            | error e => rw [hrec] at h; cases h
            | ok s2 =>
              rw [hrec, ebind_ok] at h
              cases htxt : tweetText t with
              | error e => rw [htxt, ebind_err] at h; cases h
              | ok btxt =>
                rw [htxt, ebind_ok] at h
                cases hdet : add_details t with
                | error e => rw [hdet, ebind_err] at h; cases h
                | ok det =>
                  rw [hdet, ebind_ok] at h
                  injection h with h'
                  refine ⟨ids, ca, qid, s2, btxt, det, rfl, rfl, rfl, rfl, rfl, rfl, ?_⟩
                  rw [← h', tweet_elem_attrs_quoted]
                  rfl
        case _ hq2 =>
          rw [hq] at hq2
          cases hq2

theorem add_tweet_plain_step {s : BuildState} {t : Tweet} {i : Int} {ids ca btxt : String}
    {det : Xml}
    (hid : t.id = some i) (hfresh : i ∉ s.tweet_ids) (hrt : t.retweeted_status = none)
    (hq : t.quoted_status = none) (hids : t.id_str = some ids) (hca : t.created_at = some ca)
    (htxt : tweetText t = .ok btxt) (hdet : add_details t = .ok det) :
    add_tweet s t = .ok ⟨i :: s.tweet_ids,
      s.output_tweets ++ [Xml.elem "tweet" [("id", ids), ("created_at", ca)] none
        [Xml.elem "body" [] (some btxt) [], det]]⟩ := by
  rw [add_tweet.eq_def, hid, getKey_some, ebind_ok, if_neg hfresh]
  split
  case _ rt hrt2 => rw [hrt] at hrt2; cases hrt2
  case _ =>
    rw [hids, getKey_some, ebind_ok, hca, getKey_some, ebind_ok]
    split
    case _ q2 hq2 => rw [hq] at hq2; cases hq2
    case _ =>
      rw [htxt, ebind_ok, hdet, ebind_ok, tweet_elem_attrs]
      rfl

theorem add_tweet_quoted_step {s : BuildState} {t q : Tweet} {i : Int}
    {ids ca qid btxt : String} {det : Xml} {s2 : BuildState}
    (hid : t.id = some i) (hfresh : i ∉ s.tweet_ids) (hrt : t.retweeted_status = none)
    (hq : t.quoted_status = some q) (hids : t.id_str = some ids) (hca : t.created_at = some ca)
    (hqids : q.id_str = some qid) (hrec : add_tweet ⟨i :: s.tweet_ids, []⟩ q = .ok s2)
    (htxt : tweetText t = .ok btxt) (hdet : add_details t = .ok det) :
    add_tweet s t = .ok ⟨s2.tweet_ids,
      s.output_tweets ++ [Xml.elem "tweet"
        [("id", ids), ("created_at", ca), ("quoted_from", qid)] none
        [Xml.elem "body" [] (some btxt) [], det]] ++ s2.output_tweets⟩ := by
  rw [add_tweet.eq_def, hid, getKey_some, ebind_ok, if_neg hfresh]
  split
  case _ rt hrt2 => rw [hrt] at hrt2; cases hrt2
  case _ =>
    rw [hids, getKey_some, ebind_ok, hca, getKey_some, ebind_ok]
    split
    case _ q2 hq2 =>
      rw [hq] at hq2
      injection hq2 with hq3
      subst hq3
      rw [hqids, getKey_some, ebind_ok, hrec, ebind_ok, htxt, ebind_ok, hdet, ebind_ok,
        tweet_elem_attrs_quoted]
      rfl
    case _ hq2 => rw [hq] at hq2; cases hq2

theorem add_tweet_invariant : ∀ (n : Nat) (t : Tweet), sizeOf t ≤ n → ∀ (s s' : BuildState),
    add_tweet s t = .ok s' →
    s.tweet_ids <:+ s'.tweet_ids ∧
    (∃ new, s'.output_tweets = s.output_tweets ++ new) ∧
    s'.output_tweets.length + s.tweet_ids.length ≤ s.output_tweets.length + s'.tweet_ids.length ∧
    (s.tweet_ids.Nodup → s'.tweet_ids.Nodup) ∧
    (∀ j : Int, t.id = some j → j ∈ s'.tweet_ids) := by
  intro n
  induction n using Nat.strong_induction_on with
  | _ n ih =>
    intro t hsize s s' h
    cases hid : t.id with
    | none =>
      rw [add_tweet.eq_def, hid, getKey_none, ebind_err] at h
      cases h
    | some i =>
      by_cases hmem : i ∈ s.tweet_ids
      · rw [add_tweet_seen hid hmem] at h
        injection h with h'
        subst h'
        refine ⟨List.suffix_refl _, ⟨[], by simp⟩, by omega, id, ?_⟩
        intro j hj
        injection hj with hj'
        subst hj'
        exact hmem
      · cases hrt : t.retweeted_status with
        | some rt =>
          rw [add_tweet_retweet hid hmem hrt] at h
          have hlt : sizeOf rt < n :=
            lt_of_lt_of_le (Tweet.sizeOf_lt_of_retweeted hrt) hsize
          obtain ⟨hsuf, ⟨new, hout⟩, hcount, hnodup, _⟩ :=
            ih (sizeOf rt) hlt rt le_rfl _ s' h
          have hsuf' : s.tweet_ids <:+ s'.tweet_ids :=
            (List.suffix_cons i s.tweet_ids).trans hsuf
          refine ⟨hsuf', ⟨new, hout⟩, ?_, ?_, ?_⟩
          · simp only [List.length_cons] at hcount
            omega
          · intro hnd
            exact hnodup (List.nodup_cons.mpr ⟨hmem, hnd⟩)
          · intro j hj
            injection hj with hj'
            subst hj'
            exact hsuf.subset (List.mem_cons_self i s.tweet_ids)
        | none =>
          cases hq : t.quoted_status with
          | none =>
            obtain ⟨ids, ca, btxt, det, _, _, _, _, hs'⟩ :=
              add_tweet_plain hid hmem hrt hq h
            subst hs'
            refine ⟨List.suffix_cons i s.tweet_ids, ⟨_, rfl⟩, ?_, ?_, ?_⟩
            · simp only [List.length_append, List.length_cons, List.length_nil]
              omega
            · intro hnd
              exact List.nodup_cons.mpr ⟨hmem, hnd⟩
            · intro j hj
              injection hj with hj'
              subst hj'
              exact List.mem_cons_self i s.tweet_ids
          | some q =>
            obtain ⟨ids, ca, qid, s2, btxt, det, _, _, _, hrec, _, _, hs'⟩ :=
              add_tweet_quoted hid hmem hrt hq h
            subst hs'
            have hlt : sizeOf q < n :=
              lt_of_lt_of_le (Tweet.sizeOf_lt_of_quoted hq) hsize
            obtain ⟨hsuf, ⟨new, hout⟩, hcount, hnodup, _⟩ :=
              ih (sizeOf q) hlt q le_rfl _ s2 hrec
            have hsuf' : s.tweet_ids <:+ s2.tweet_ids :=
              (List.suffix_cons i s.tweet_ids).trans hsuf
            refine ⟨hsuf', ⟨_, by rw [List.append_assoc]⟩, ?_, ?_, ?_⟩
            · simp only [List.length_append, List.length_cons, List.length_nil] at hcount ⊢
              omega
            · intro hnd
              exact hnodup (List.nodup_cons.mpr ⟨hmem, hnd⟩)
            · intro j hj
              injection hj with hj'
              subst hj'
              exact hsuf.subset (List.mem_cons_self i s.tweet_ids)

theorem add_tweet_inv {s : BuildState} {t : Tweet} {s' : BuildState}
    (h : add_tweet s t = .ok s') :
    s.tweet_ids <:+ s'.tweet_ids ∧
    (∃ new, s'.output_tweets = s.output_tweets ++ new) ∧
    s'.output_tweets.length + s.tweet_ids.length ≤ s.output_tweets.length + s'.tweet_ids.length ∧
    (s.tweet_ids.Nodup → s'.tweet_ids.Nodup) ∧
    (∀ j : Int, t.id = some j → j ∈ s'.tweet_ids) :=
  add_tweet_invariant (sizeOf t) t le_rfl s s' h

theorem processTweets_inv : ∀ (lines : List (Except PyErr Tweet)) (s s' : BuildState),
    processTweets s lines = .ok s' →
    s.tweet_ids <:+ s'.tweet_ids ∧
    (∃ new, s'.output_tweets = s.output_tweets ++ new) ∧
    s'.output_tweets.length + s.tweet_ids.length ≤ s.output_tweets.length + s'.tweet_ids.length ∧
    (s.tweet_ids.Nodup → s'.tweet_ids.Nodup) := by
  intro lines
  induction lines with
  | nil =>
    intro s s' h
    injection h with h'
    subst h'
    exact ⟨List.suffix_refl _, ⟨[], by simp⟩, by omega, id⟩
  | cons line rest ih =>
    intro s s' h
    cases line with
    | error e => rw [processTweets, ebind_err] at h; cases h
    | ok t =>
      rw [processTweets, ebind_ok] at h
      cases h1 : add_tweet s t with
      | error e => rw [h1, ebind_err] at h; cases h
      | ok s1 =>
        rw [h1, ebind_ok] at h
        obtain ⟨hsuf1, ⟨new1, hout1⟩, hcount1, hnd1, _⟩ := add_tweet_inv h1
        obtain ⟨hsuf2, ⟨new2, hout2⟩, hcount2, hnd2⟩ := ih s1 s' h
        refine ⟨hsuf1.trans hsuf2, ⟨new1 ++ new2, ?_⟩, ?_, fun hnd => hnd2 (hnd1 hnd)⟩
        · rw [hout2, hout1, List.append_assoc]
        · have hl1 : s1.tweet_ids.length ≤ s'.tweet_ids.length := hsuf2.length_le
          have hl2 : s.tweet_ids.length ≤ s1.tweet_ids.length := hsuf1.length_le
          omega

/-- Two elements are in sort order when both sort keys parse and compare. -/
def sortKeyLE (x y : Xml) : Prop :=
  ∃ kx ky, sortKey x = .ok kx ∧ sortKey y = .ok ky ∧ kx ≤ ky

instance : IsTotal (Int × Xml) (fun a b => a.1 ≤ b.1) :=
  ⟨fun a b => le_total a.1 b.1⟩

instance : IsTrans (Int × Xml) (fun a b => a.1 ≤ b.1) :=
  ⟨fun _ _ _ hab hbc => le_trans hab hbc⟩

theorem emapList_keyed_spec : ∀ (l : List Xml) (keyed : List (Int × Xml)),
    emapList (fun x => ebind (sortKey x) fun k => .ok ((k, x) : Int × Xml)) l = .ok keyed →
    (∀ p ∈ keyed, sortKey p.2 = .ok p.1) ∧ keyed.map Prod.snd = l := by
  intro l
  induction l with
  | nil =>
    intro keyed h
    injection h with h'
    subst h'
    constructor
    · intro p hp
      cases hp
    · rfl
  | cons x rest ih =>
    intro keyed h
    rw [emapList] at h
    cases hk : sortKey x with
    | error e => rw [hk, ebind_err, ebind_err] at h; cases h
    | ok k =>
      rw [hk, ebind_ok, ebind_ok] at h
      cases hrest : emapList (fun x => ebind (sortKey x) fun k => .ok ((k, x) : Int × Xml)) rest with
      | error e => rw [hrest, ebind_err] at h; cases h
      | ok keyedRest =>
        rw [hrest, ebind_ok] at h
        injection h with h'
        subst h'
        obtain ⟨hmem, hmap⟩ := ih keyedRest hrest
        constructor
        · intro p hp
          rcases List.mem_cons.mp hp with hp1 | hp2
          · subst hp1; exact hk
          · exact hmem p hp2
        · simp [hmap]

theorem sortTweets_ok {l l' : List Xml} (h : sortTweets l = .ok l') :
    l'.Pairwise sortKeyLE ∧ l'.Perm l := by
  rw [sortTweets] at h
  cases hk : emapList (fun x => ebind (sortKey x) fun k => .ok ((k, x) : Int × Xml)) l with
  | error e => rw [hk, ebind_err] at h; cases h
  | ok keyed =>
    rw [hk, ebind_ok] at h
    injection h with h'
    subst h'
    obtain ⟨hmem, hmap⟩ := emapList_keyed_spec l keyed hk
    constructor
    · have hsorted : (List.insertionSort (fun a b : Int × Xml => a.1 ≤ b.1) keyed).Pairwise
          (fun a b : Int × Xml => a.1 ≤ b.1) :=
        List.sorted_insertionSort (fun a b : Int × Xml => a.1 ≤ b.1) keyed
      rw [List.pairwise_map]
      refine hsorted.imp_of_mem ?_
      intro a b ha hb hab
      have ha' : a ∈ keyed := (List.perm_insertionSort _ keyed).mem_iff.mp ha
      have hb' : b ∈ keyed := (List.perm_insertionSort _ keyed).mem_iff.mp hb
      exact ⟨a.1, b.1, hmem a ha', hmem b hb', hab⟩
    · rw [← hmap]
      exact (List.perm_insertionSort _ keyed).map Prod.snd

theorem foldl_appendChild : ∀ (l : List Xml) (x : Xml),
    List.foldl Xml.appendChild x l =
      Xml.elem x.tag x.attrs x.text (x.children ++ l) := by
  intro l
  induction l with
  | nil =>
    intro x
    cases x
    simp [Xml.tag, Xml.attrs, Xml.text, Xml.children]
  | cons c cs ih =>
    intro x
    cases x with
    | elem tg a tx ch =>
      rw [List.foldl_cons, ih]
      simp [Xml.appendChild, Xml.tag, Xml.attrs, Xml.text, Xml.children]

theorem write_xml_ok {st : TCState} {file : Option Xml} {st' : TCState} {root : Xml}
    (h : write_xml st file = (.ok st', some root)) :
    ∃ bs sorted, processTweets ⟨st.tweet_ids, []⟩ st.parsed_tweets = .ok bs ∧
      sortTweets bs.output_tweets = .ok sorted ∧
      st' = ⟨bs.tweet_ids, root, [], sorted⟩ ∧
      root = Xml.elem st.xml_root.tag st.xml_root.attrs st.xml_root.text
        (st.xml_root.children ++ sorted) := by
  rw [write_xml] at h
  split at h
  · simp at h
  · split at h
    · simp at h
    · rename_i xa bs hp xb sorted hs
      simp only [Prod.mk.injEq] at h
      obtain ⟨h1, h2⟩ := h
      injection h1 with h1'
      injection h2 with h2'
      refine ⟨bs, sorted, hp, hs, ?_, ?_⟩
      · rw [← h1', ← h2']
      · rw [← h2', foldl_appendChild]

theorem write_xml_cases (st : TCState) (file : Option Xml) :
    (∃ st' root, write_xml st file = (.ok st', some root)) ∨
    (∃ e, write_xml st file = (.error e, file)) := by
  cases hp : processTweets ⟨st.tweet_ids, []⟩ st.parsed_tweets with
  | error e => exact Or.inr ⟨e, by simp only [write_xml, hp]⟩
  | ok bs =>
    cases hs : sortTweets bs.output_tweets with
    | error e => exact Or.inr ⟨e, by simp only [write_xml, hp, hs]⟩
    | ok sorted =>
      refine Or.inl ⟨⟨bs.tweet_ids, List.foldl Xml.appendChild st.xml_root sorted, [], sorted⟩,
        List.foldl Xml.appendChild st.xml_root sorted, ?_⟩
      simp only [write_xml, hp, hs]

/-- C2: if any record causes a fatal error, the file at the output path is
untouched: the only write happens after the full pass and the sort. -/
theorem c2_error_aborts_before_write (st : TCState) (file : Option Xml) (e : PyErr)
    (h : (write_xml st file).1 = .error e) : (write_xml st file).2 = file := by
  rcases write_xml_cases st file with ⟨st', root, heq⟩ | ⟨e', heq⟩
  · rw [heq] at h
    cases h
  · rw [heq]

theorem c2_witness :
    (write_xml (tweetCollectionInit [Except.error PyErr.parseError]) none).1 =
      Except.error PyErr.parseError ∧
    (write_xml (tweetCollectionInit [Except.error PyErr.parseError]) none).2 = none :=
  ⟨rfl, c2_error_aborts_before_write _ _ PyErr.parseError rfl⟩

/-- C10: `write_xml` never resets the document root: the root returned by a
successful call extends the previous root's children, and a second
successful call on the resulting state extends them again. -/
theorem c10_root_accumulates (st : TCState) (file : Option Xml) (st' : TCState) (root : Xml)
    (h : write_xml st file = (.ok st', some root)) :
    st'.xml_root = root ∧
    (∃ new, root.children = st.xml_root.children ++ new) ∧
    (∀ file2 st2 root2, write_xml st' file2 = (.ok st2, some root2) →
      ∃ more, root2.children = root.children ++ more) := by
  obtain ⟨bs, sorted, hp, hs, hst, hroot⟩ := write_xml_ok h
  refine ⟨by rw [hst], ⟨sorted, by rw [hroot]; rfl⟩, ?_⟩
  intro file2 st2 root2 h2
  obtain ⟨bs2, sorted2, hp2, hs2, hst2, hroot2⟩ := write_xml_ok h2
  refine ⟨sorted2, ?_⟩
  rw [hroot2, hst]
  rfl

def uAlice : TUser := ⟨some "alice", some "u1"⟩

def entEmpty : TEntities := ⟨some [], some [], some []⟩

/-- A plain, fully-populated original-tweet record with no retweet, no
quote, and empty entity lists. -/
def mkPlain (i : Int) (ids ca tx : String) : Tweet :=
  Tweet.mk (some i) (some ids) (some ca) (some tx) (some false) none none none
    (some uAlice) (some entEmpty)

def userElemAlice : Xml := Xml.elem "user" [("screen_name", "alice"), ("id", "u1")] none []

def detailsEmpty : Xml :=
  Xml.elem "details" [] none [userElemAlice, Xml.elem "user_mentions" [] none []]

/-- The element `add_tweet` builds for `mkPlain i ids ca tx`. -/
def mkPlainElem (ids ca tx : String) : Xml :=
  Xml.elem "tweet" [("id", ids), ("created_at", ca)] none
    [Xml.elem "body" [] (some tx) [], detailsEmpty]

def twA : Tweet := mkPlain 1 "1" "Mon Jan 02 15:04:05 +0000 2006" "hello world"

def twB : Tweet := mkPlain 2 "2" "Tue Jan 02 15:04:05 +0000 2007" "second tweet"

def elA : Xml := mkPlainElem "1" "Mon Jan 02 15:04:05 +0000 2006" "hello world"

def elB : Xml := mkPlainElem "2" "Tue Jan 02 15:04:05 +0000 2007" "second tweet"

theorem add_tweet_twA : add_tweet ⟨[], []⟩ twA = .ok ⟨[1], [elA]⟩ := by
  simp only [add_tweet, twA, mkPlain, Tweet.id, Tweet.id_str, Tweet.created_at, Tweet.text,
    Tweet.truncated, Tweet.extended_tweet, Tweet.retweeted_status, Tweet.quoted_status,
    Tweet.user, Tweet.entities, getKey, ebind, tweetText, add_details, add_user, emapList,
    uAlice, entEmpty, Xml.set, Xml.appendChild, attrSet, elA, mkPlainElem, detailsEmpty,
    userElemAlice]
  norm_num
  rfl

theorem proc_twBA : processTweets ⟨[], []⟩ [.ok twB, .ok twA] = .ok ⟨[1, 2], [elB, elA]⟩ := by
  simp only [processTweets, add_tweet, twA, twB, mkPlain, Tweet.id, Tweet.id_str,
    Tweet.created_at, Tweet.text, Tweet.truncated, Tweet.extended_tweet,
    Tweet.retweeted_status, Tweet.quoted_status, Tweet.user, Tweet.entities, getKey, ebind,
    tweetText, add_details, add_user, emapList, uAlice, entEmpty, Xml.set, Xml.appendChild,
    attrSet, elA, elB, mkPlainElem, detailsEmpty, userElemAlice]
  norm_num
  rfl

def rootBA : Xml := Xml.elem "tweets" [] none [elA, elB]

theorem write_twBA :
    write_xml (tweetCollectionInit [.ok twB, .ok twA]) none =
      (.ok ⟨[1, 2], rootBA, [], [elA, elB]⟩, some rootBA) := by
  have h1 : processTweets ⟨(tweetCollectionInit [.ok twB, .ok twA]).tweet_ids, []⟩
      (tweetCollectionInit [.ok twB, .ok twA]).parsed_tweets = .ok ⟨[1, 2], [elB, elA]⟩ :=
    proc_twBA
  rw [write_xml, h1]
  rfl

/-- C1: the duplicate check returns without creating anything; a record,
once processed, is inert when reprocessed (its id was inserted before any
recursion); and the final document has at most one tweet element per
distinct seen identifier. -/
theorem c1_dedup_invariant :
    (∀ (s : BuildState) (t : Tweet) (i : Int),
      t.id = some i → i ∈ s.tweet_ids → add_tweet s t = .ok s) ∧
    (∀ (s s' : BuildState) (t : Tweet),
      add_tweet s t = .ok s' → add_tweet s' t = .ok s') ∧
    (∀ (input : List (Except PyErr Tweet)) (st' : TCState) (root : Xml),
      write_xml (tweetCollectionInit input) none = (.ok st', some root) →
      root.children.length ≤ st'.tweet_ids.length ∧ st'.tweet_ids.Nodup) := by
  refine ⟨fun s t i hid hmem => add_tweet_seen hid hmem, ?_, ?_⟩
  · intro s s' t h
    cases hid : t.id with
    | none => rw [add_tweet.eq_def, hid, getKey_none, ebind_err] at h; cases h
    | some i =>
      obtain ⟨_, _, _, _, hjmem⟩ := add_tweet_inv h
      exact add_tweet_seen hid (hjmem i hid)
  · intro input st' root h
    obtain ⟨bs, sorted, hp, hs, hst, hroot⟩ := write_xml_ok h
    obtain ⟨hsuf, ⟨new, hout⟩, hcount, hnd⟩ := processTweets_inv _ _ _ hp
    obtain ⟨_, hperm⟩ := sortTweets_ok hs
    subst hst
    constructor
    · rw [hroot]
      have hlen : sorted.length = bs.output_tweets.length := hperm.length_eq
      simp only [tweetCollectionInit, Xml.children, List.length_append, List.length_nil,
        List.nil_append] at *
      omega
    · exact hnd (by simp [tweetCollectionInit])

theorem c1_witness :
    add_tweet ⟨[1], []⟩ twA = .ok ⟨[1], []⟩ ∧
    add_tweet ⟨[1], [elA]⟩ twA = .ok ⟨[1], [elA]⟩ ∧
    rootBA.children.length ≤ ([1, 2] : List Int).length ∧ ([1, 2] : List Int).Nodup := by
  refine ⟨c1_dedup_invariant.1 ⟨[1], []⟩ twA 1 rfl (by simp), ?_, ?_⟩
  · exact c1_dedup_invariant.2.1 ⟨[], []⟩ ⟨[1], [elA]⟩ twA add_tweet_twA
  · exact c1_dedup_invariant.2.2 [.ok twB, .ok twA] ⟨[1, 2], rootBA, [], [elA, elB]⟩ rootBA
      write_twBA

/-- C3: on a successful build from a fresh collection, the document's
tweet children are pairwise in non-decreasing order of their parsed
`created_at` keys, and every element a record produces carries that
record's `created_at` string verbatim. -/
theorem c3_chronological_order (input : List (Except PyErr Tweet)) (st' : TCState) (root : Xml)
    (h : write_xml (tweetCollectionInit input) none = (.ok st', some root)) :
    root.children.Pairwise sortKeyLE ∧
    (∀ (s : BuildState) (t : Tweet) (i : Int) (s' : BuildState),
      t.id = some i → i ∉ s.tweet_ids → t.retweeted_status = none →
      add_tweet s t = .ok s' →
      ∃ e rest, s'.output_tweets = s.output_tweets ++ e :: rest ∧
        attrGet e.attrs "created_at" = t.created_at) := by
  constructor
  · obtain ⟨bs, sorted, hp, hs, hst, hroot⟩ := write_xml_ok h
    obtain ⟨hpair, _⟩ := sortTweets_ok hs
    rw [hroot]
    simpa [tweetCollectionInit, Xml.children] using hpair
  · intro s t i s' hid hfresh hrt h'
    cases hq : t.quoted_status with
    | none =>
      obtain ⟨ids, ca, btxt, det, hids, hca, _, _, hs'⟩ := add_tweet_plain hid hfresh hrt hq h'
      subst hs'
      refine ⟨_, [], rfl, ?_⟩
      rw [hca]
      simp [attrGet]
    | some q =>
      obtain ⟨ids, ca, qid, s2, btxt, det, hids, hca, hqids, hrec, _, _, hs'⟩ :=
        add_tweet_quoted hid hfresh hrt hq h'
      subst hs'
      refine ⟨Xml.elem "tweet" [("id", ids), ("created_at", ca), ("quoted_from", qid)] none
        [Xml.elem "body" [] (some btxt) [], det], s2.output_tweets, by simp, ?_⟩
      rw [hca]
      simp [attrGet]

theorem c3_witness :
    rootBA.children.Pairwise sortKeyLE ∧
    (∃ e rest, (⟨[1], [elA]⟩ : BuildState).output_tweets =
      (⟨[], []⟩ : BuildState).output_tweets ++ e :: rest ∧
      attrGet e.attrs "created_at" = twA.created_at) :=
  ⟨(c3_chronological_order [.ok twB, .ok twA] ⟨[1, 2], rootBA, [], [elA, elB]⟩ rootBA
      write_twBA).1,
   (c3_chronological_order [.ok twB, .ok twA] ⟨[1, 2], rootBA, [], [elA, elB]⟩ rootBA
      write_twBA).2 ⟨[], []⟩ twA 1 ⟨[1], [elA]⟩ rfl (by simp) rfl add_tweet_twA⟩

def tw5 : Tweet := mkPlain 5 "5" "Mon Jan 02 15:04:05 +0000 2006" "fifth"

def el5 : Xml := mkPlainElem "5" "Mon Jan 02 15:04:05 +0000 2006" "fifth"

/-- A collection state whose seen-id set already holds `5` (as after an
earlier build) and whose pending record stream holds a fresh, fully
well-formed record with id `5`. -/
def stStale : TCState :=
  ⟨[5], Xml.elem "tweets" [] none [], [.ok tw5], []⟩

theorem add_tweet_tw5 : add_tweet ⟨[], []⟩ tw5 = .ok ⟨[5], [el5]⟩ := by
  simp only [add_tweet, tw5, mkPlain, Tweet.id, Tweet.id_str, Tweet.created_at, Tweet.text,
    Tweet.truncated, Tweet.extended_tweet, Tweet.retweeted_status, Tweet.quoted_status,
    Tweet.user, Tweet.entities, getKey, ebind, tweetText, add_details, add_user, emapList,
    uAlice, entEmpty, Xml.set, Xml.appendChild, attrSet, el5, mkPlainElem, detailsEmpty,
    userElemAlice]
  norm_num
  rfl

/-- C8 counterexample: the seen-id set is NOT cleared at the start of
`write_xml`.  On a state whose seen-id set already holds `5`, the fresh
record `tw5` is silently dropped and the written document is empty, while
the same state with a cleared seen-id set yields one element — so the two
runs differ, refuting "both ... are cleared/reset". -/
theorem c8_counterexample :
    (write_xml stStale none).2 = some (Xml.elem "tweets" [] none []) ∧
    (write_xml { stStale with tweet_ids := [] } none).2 =
      some (Xml.elem "tweets" [] none [el5]) ∧
    (write_xml stStale none).2 ≠ (write_xml { stStale with tweet_ids := [] } none).2 := by
  have h1 : processTweets ⟨stStale.tweet_ids, []⟩ stStale.parsed_tweets = .ok ⟨[5], []⟩ := by
    have hseen : add_tweet ⟨[5], []⟩ tw5 = .ok ⟨[5], []⟩ :=
      @add_tweet_seen ⟨[5], []⟩ tw5 5 rfl (by simp)
    rw [stStale]
    rw [processTweets, ebind_ok, hseen, ebind_ok]
    rfl
  have h2 : processTweets ⟨({ stStale with tweet_ids := [] } : TCState).tweet_ids, []⟩
      ({ stStale with tweet_ids := [] } : TCState).parsed_tweets = .ok ⟨[5], [el5]⟩ := by
    show processTweets ⟨[], []⟩ [.ok tw5] = _
    rw [processTweets, ebind_ok, add_tweet_tw5, ebind_ok]
    rfl
  have hw1 : (write_xml stStale none).2 = some (Xml.elem "tweets" [] none []) := by
    rw [write_xml, h1]
    rfl
  have hw2 : (write_xml { stStale with tweet_ids := [] } none).2 =
      some (Xml.elem "tweets" [] none [el5]) := by
    rw [write_xml, h2]
    rfl
  refine ⟨hw1, hw2, ?_⟩
  rw [hw1, hw2]
  intro hcontra
  injection hcontra with hc
  cases hc

/-- C8 amended: only the accumulating element list is (effectively)
cleared at the start of each `write_xml` call — the call's result never
depends on the list left by a previous call — while the seen-id set
persists from construction and only grows across successful calls. -/
theorem c8_amended :
    (∀ (st : TCState) (file : Option Xml) (l : List Xml),
      write_xml st file = write_xml { st with output_tweets := l } file) ∧
    (∀ (st : TCState) (file : Option Xml) (st' : TCState) (root : Xml),
      write_xml st file = (.ok st', some root) → st.tweet_ids <:+ st'.tweet_ids) := by
  constructor
  · intro st file l
    rfl
  · intro st file st' root h
    obtain ⟨bs, sorted, hp, hs, hst, hroot⟩ := write_xml_ok h
    obtain ⟨hsuf, _, _, _⟩ := processTweets_inv _ _ _ hp
    rw [hst]
    exact hsuf

theorem c8_amended_witness :
    write_xml stStale none = write_xml { stStale with output_tweets := [el5] } none ∧
    (stStale.tweet_ids <:+ (⟨[5], Xml.elem "tweets" [] none [], [], []⟩ : TCState).tweet_ids) := by
  constructor
  · exact c8_amended.1 stStale none [el5]
  · refine c8_amended.2 stStale none ⟨[5], Xml.elem "tweets" [] none [], [], []⟩
      (Xml.elem "tweets" [] none []) ?_
    have h1 : processTweets ⟨stStale.tweet_ids, []⟩ stStale.parsed_tweets = .ok ⟨[5], []⟩ := by
      have hseen : add_tweet ⟨[5], []⟩ tw5 = .ok ⟨[5], []⟩ :=
        @add_tweet_seen ⟨[5], []⟩ tw5 5 rfl (by simp)
      rw [stStale]
      rw [processTweets, ebind_ok, hseen, ebind_ok]
      rfl
    rw [write_xml, h1]
    rfl

/-- C4: a fresh record carrying `retweeted_status` produces no element of
its own — processing continues on the nested record with only the wrapper
id added to the seen set; and the one-record retweet scenario yields
exactly the nested record's element. -/
theorem c4_retweet_resolution :
    (∀ (s : BuildState) (t rt : Tweet) (i : Int),
      t.id = some i → i ∉ s.tweet_ids → t.retweeted_status = some rt →
      add_tweet s t = add_tweet ⟨i :: s.tweet_ids, s.output_tweets⟩ rt) ∧
    (∀ (R S : Tweet) (iR iS : Int) (bs : BuildState),
      R.id = some iR → R.retweeted_status = some S →
      S.id = some iS → iS ≠ iR → S.retweeted_status = none → S.quoted_status = none →
      processTweets ⟨[], []⟩ [.ok R] = .ok bs →
      ∃ ids ca btxt det, S.id_str = some ids ∧ S.created_at = some ca ∧
        tweetText S = .ok btxt ∧ add_details S = .ok det ∧
        bs.output_tweets = [Xml.elem "tweet" [("id", ids), ("created_at", ca)] none
          [Xml.elem "body" [] (some btxt) [], det]] ∧
        (∀ rids, R.id_str = some rids → rids ≠ ids →
          ∀ e ∈ bs.output_tweets, attrGet e.attrs "id" ≠ some rids)) := by
  refine ⟨fun s t rt i hid hfresh hrt => add_tweet_retweet hid hfresh hrt, ?_⟩
  intro R S iR iS bs hRid hRrt hSid hne hSrt hSq hrun
  rw [processTweets, ebind_ok] at hrun
  rw [add_tweet_retweet hRid (by simp) hRrt] at hrun
  cases hadd : add_tweet ⟨[iR], []⟩ S with
  | error e => rw [hadd, ebind_err] at hrun; cases hrun
  | ok s1 =>
    rw [hadd, ebind_ok, processTweets] at hrun
    injection hrun with hrun'
    subst hrun'
    obtain ⟨ids, ca, btxt, det, hids, hca, htxt, hdet, hs1⟩ :=
      add_tweet_plain hSid (by simp [hne]) hSrt hSq hadd
    subst hs1
    refine ⟨ids, ca, btxt, det, hids, hca, htxt, hdet, rfl, ?_⟩
    intro rids hRids hne2 e he
    rcases List.mem_singleton.mp he with rfl
    simp only [Xml.attrs, attrGet]
    simp [hne2.symm]

def twS : Tweet := mkPlain 3 "3" "Mon Jan 02 15:04:05 +0000 2006" "original text"

def elS : Xml := mkPlainElem "3" "Mon Jan 02 15:04:05 +0000 2006" "original text"

/-- A retweet wrapper around `twS`. -/
def twR : Tweet :=
  Tweet.mk (some 4) (some "4") (some "Tue Jan 03 10:00:00 +0000 2006") none (some false) none
    (some twS) none (some uAlice) (some entEmpty)

theorem add_tweet_twS : add_tweet ⟨[4], []⟩ twS = .ok ⟨[3, 4], [elS]⟩ := by
  simp only [add_tweet, twS, mkPlain, Tweet.id, Tweet.id_str, Tweet.created_at, Tweet.text,
    Tweet.truncated, Tweet.extended_tweet, Tweet.retweeted_status, Tweet.quoted_status,
    Tweet.user, Tweet.entities, getKey, ebind, tweetText, add_details, add_user, emapList,
    uAlice, entEmpty, Xml.set, Xml.appendChild, attrSet, elS, mkPlainElem, detailsEmpty,
    userElemAlice]
  norm_num
  rfl

theorem proc_twR : processTweets ⟨[], []⟩ [.ok twR] = .ok ⟨[3, 4], [elS]⟩ := by
  have hstep : add_tweet ⟨[], []⟩ twR = add_tweet ⟨[4], []⟩ twS :=
    @add_tweet_retweet ⟨[], []⟩ twR twS 4 rfl (by simp) rfl
  rw [processTweets, ebind_ok, hstep, add_tweet_twS, ebind_ok]
  rfl

theorem c4_witness :
    ∃ ids ca btxt det, twS.id_str = some ids ∧ twS.created_at = some ca ∧
      tweetText twS = .ok btxt ∧ add_details twS = .ok det ∧
      (⟨[3, 4], [elS]⟩ : BuildState).output_tweets =
        [Xml.elem "tweet" [("id", ids), ("created_at", ca)] none
          [Xml.elem "body" [] (some btxt) [], det]] ∧
      (∀ rids, twR.id_str = some rids → rids ≠ ids →
        ∀ e ∈ (⟨[3, 4], [elS]⟩ : BuildState).output_tweets,
          attrGet e.attrs "id" ≠ some rids) :=
  c4_retweet_resolution.2 twR twS 4 3 ⟨[3, 4], [elS]⟩ rfl rfl rfl (by decide) rfl rfl proc_twR

/-- C9: deduplication keys on the numeric `id` while the emitted attribute
comes from `id_str`: equal `id`s drop the second record regardless of its
`id_str`; distinct `id`s with the same `id_str` both emit, with identical
`id` attributes. -/
theorem c9_dedup_key_mismatch :
    (∀ (r1 r2 : Tweet) (i : Int) (a : String) (bs : BuildState),
      r1.id = some i → r2.id = some i → r1.id_str = some a →
      r1.retweeted_status = none → r1.quoted_status = none →
      processTweets ⟨[], []⟩ [.ok r1, .ok r2] = .ok bs →
      ∃ e, bs.output_tweets = [e] ∧ attrGet e.attrs "id" = some a) ∧
    (∀ (r1 r2 : Tweet) (i1 i2 : Int) (a : String) (bs : BuildState),
      r1.id = some i1 → r2.id = some i2 → i1 ≠ i2 →
      r1.id_str = some a → r2.id_str = some a →
      r1.retweeted_status = none → r1.quoted_status = none →
      r2.retweeted_status = none → r2.quoted_status = none →
      processTweets ⟨[], []⟩ [.ok r1, .ok r2] = .ok bs →
      ∃ e1 e2, bs.output_tweets = [e1, e2] ∧
        attrGet e1.attrs "id" = some a ∧ attrGet e2.attrs "id" = some a) := by
  constructor
  · intro r1 r2 i a bs h1id h2id h1ids h1rt h1q hrun
    rw [processTweets, ebind_ok] at hrun
    cases hadd : add_tweet ⟨[], []⟩ r1 with
    | error e => rw [hadd, ebind_err] at hrun; cases hrun
    | ok s1 =>
      rw [hadd, ebind_ok] at hrun
      obtain ⟨ids, ca, btxt, det, hids, hca, htxt, hdet, hs1⟩ :=
        add_tweet_plain h1id (by simp) h1rt h1q hadd
      rw [hids] at h1ids
      injection h1ids with h1ids'
      subst h1ids'
      subst hs1
      rw [processTweets, ebind_ok] at hrun
      rw [add_tweet_seen h2id (by simp)] at hrun
      rw [ebind_ok, processTweets] at hrun
      injection hrun with hrun'
      subst hrun'
      refine ⟨_, rfl, ?_⟩
      simp [attrGet]
  · intro r1 r2 i1 i2 a bs h1id h2id hne h1ids h2ids h1rt h1q h2rt h2q hrun
    rw [processTweets, ebind_ok] at hrun
    cases hadd : add_tweet ⟨[], []⟩ r1 with
    | error e => rw [hadd, ebind_err] at hrun; cases hrun
    | ok s1 =>
      rw [hadd, ebind_ok] at hrun
      obtain ⟨ids, ca, btxt, det, hids, hca, htxt, hdet, hs1⟩ :=
        add_tweet_plain h1id (by simp) h1rt h1q hadd
      rw [hids] at h1ids
      injection h1ids with h1ids'
      subst h1ids'
      subst hs1
      rw [processTweets, ebind_ok] at hrun
      cases hadd2 : add_tweet ⟨[i1], ([] : List Xml) ++
          [Xml.elem "tweet" [("id", ids), ("created_at", ca)] none
            [Xml.elem "body" [] (some btxt) [], det]]⟩ r2 with
      | error e => rw [hadd2, ebind_err] at hrun; cases hrun
      | ok s2 =>
        rw [hadd2, ebind_ok, processTweets] at hrun
        injection hrun with hrun'
        subst hrun'
        obtain ⟨ids2, ca2, btxt2, det2, hids2, hca2, htxt2, hdet2, hs2⟩ :=
          add_tweet_plain h2id (by simp [Ne.symm hne]) h2rt h2q hadd2
        rw [hids2] at h2ids
        injection h2ids with h2ids'
        subst h2ids'
        subst hs2
        refine ⟨_, _, rfl, ?_, ?_⟩
        · simp [attrGet]
        · simp [attrGet]

def twE1 : Tweet := mkPlain 7 "A" "Mon Jan 02 15:04:05 +0000 2006" "first seven"

def twE2 : Tweet := mkPlain 7 "B" "Mon Jan 02 16:04:05 +0000 2006" "second seven"

def elE1 : Xml := mkPlainElem "A" "Mon Jan 02 15:04:05 +0000 2006" "first seven"

def twS1 : Tweet := mkPlain 8 "S" "Mon Jan 02 15:04:05 +0000 2006" "eight"

def twS2 : Tweet := mkPlain 9 "S" "Mon Jan 02 16:04:05 +0000 2006" "nine"

def elS1 : Xml := mkPlainElem "S" "Mon Jan 02 15:04:05 +0000 2006" "eight"

def elS2 : Xml := mkPlainElem "S" "Mon Jan 02 16:04:05 +0000 2006" "nine"

theorem proc_twE : processTweets ⟨[], []⟩ [.ok twE1, .ok twE2] = .ok ⟨[7], [elE1]⟩ := by
  simp only [processTweets, add_tweet, twE1, twE2, mkPlain, Tweet.id, Tweet.id_str,
    Tweet.created_at, Tweet.text, Tweet.truncated, Tweet.extended_tweet,
    Tweet.retweeted_status, Tweet.quoted_status, Tweet.user, Tweet.entities, getKey, ebind,
    tweetText, add_details, add_user, emapList, uAlice, entEmpty, Xml.set, Xml.appendChild,
    attrSet, elE1, mkPlainElem, detailsEmpty, userElemAlice]
  norm_num
  rfl

theorem proc_twS12 : processTweets ⟨[], []⟩ [.ok twS1, .ok twS2] = .ok ⟨[9, 8], [elS1, elS2]⟩ := by
  simp only [processTweets, add_tweet, twS1, twS2, mkPlain, Tweet.id, Tweet.id_str,
    Tweet.created_at, Tweet.text, Tweet.truncated, Tweet.extended_tweet,
    Tweet.retweeted_status, Tweet.quoted_status, Tweet.user, Tweet.entities, getKey, ebind,
    tweetText, add_details, add_user, emapList, uAlice, entEmpty, Xml.set, Xml.appendChild,
    attrSet, elS1, elS2, mkPlainElem, detailsEmpty, userElemAlice]
  norm_num
  rfl

theorem c9_witness :
    (∃ e, (⟨[7], [elE1]⟩ : BuildState).output_tweets = [e] ∧
      attrGet e.attrs "id" = some "A") ∧
    (∃ e1 e2, (⟨[9, 8], [elS1, elS2]⟩ : BuildState).output_tweets = [e1, e2] ∧
      attrGet e1.attrs "id" = some "S" ∧ attrGet e2.attrs "id" = some "S") :=
  ⟨c9_dedup_key_mismatch.1 twE1 twE2 7 "A" ⟨[7], [elE1]⟩ rfl rfl rfl rfl rfl proc_twE,
   c9_dedup_key_mismatch.2 twS1 twS2 8 9 "S" ⟨[9, 8], [elS1, elS2]⟩ rfl rfl (by decide)
     rfl rfl rfl rfl rfl rfl proc_twS12⟩

/-- All records contained in one raw record: itself plus every record
nested below `retweeted_status` or `quoted_status`. -/
def subRecords (t : Tweet) : List Tweet :=
  t ::
    ((match hrt : t.retweeted_status with
      | some rt => subRecords rt
      | none => []) ++
     (match hq : t.quoted_status with
      | some q => subRecords q
      | none => []))
termination_by sizeOf t
decreasing_by
  · exact Tweet.sizeOf_lt_of_retweeted hrt
  · exact Tweet.sizeOf_lt_of_quoted hq

/-- All records present anywhere in the parsed input lines. -/
def inputRecords (input : List (Except PyErr Tweet)) : List Tweet :=
  (input.map (fun line =>
    match line with
    | .ok t => subRecords t
    | .error _ => [])).flatten

def twX5 : Tweet := mkPlain 3 "3" "Mon Jan 02 12:00:00 +0000 2006" "the original"

def elX5 : Xml := mkPlainElem "3" "Mon Jan 02 12:00:00 +0000 2006" "the original"

/-- Post 2 is a retweet of `twX5`: quoting it makes `quoted_from="2"`
dangle. -/
def twQ5 : Tweet :=
  Tweet.mk (some 2) (some "2") (some "Mon Jan 02 13:00:00 +0000 2006") none (some false) none
    (some twX5) none (some uAlice) (some entEmpty)

/-- Post 1 quotes post 2 (which is itself a retweet wrapper). -/
def twP5 : Tweet :=
  Tweet.mk (some 1) (some "1") (some "Mon Jan 02 15:04:05 +0000 2006")
    (some "quoting a retweet") (some false) none none (some twQ5) (some uAlice)
    (some entEmpty)

def elP5 : Xml :=
  Xml.elem "tweet"
    [("id", "1"), ("created_at", "Mon Jan 02 15:04:05 +0000 2006"), ("quoted_from", "2")] none
    [Xml.elem "body" [] (some "quoting a retweet") [], detailsEmpty]

def root5 : Xml := Xml.elem "tweets" [] none [elX5, elP5]

theorem add_tweet_twX5 : add_tweet ⟨[2, 1], []⟩ twX5 = .ok ⟨[3, 2, 1], [elX5]⟩ := by
  simp only [add_tweet, twX5, mkPlain, Tweet.id, Tweet.id_str, Tweet.created_at, Tweet.text,
    Tweet.truncated, Tweet.extended_tweet, Tweet.retweeted_status, Tweet.quoted_status,
    Tweet.user, Tweet.entities, getKey, ebind, tweetText, add_details, add_user, emapList,
    uAlice, entEmpty, Xml.set, Xml.appendChild, attrSet, elX5, mkPlainElem, detailsEmpty,
    userElemAlice]
  norm_num
  rfl

theorem add_tweet_twQ5 : add_tweet ⟨[1], []⟩ twQ5 = .ok ⟨[3, 2, 1], [elX5]⟩ := by
  have hstep : add_tweet ⟨[1], []⟩ twQ5 = add_tweet ⟨[2, 1], []⟩ twX5 :=
    @add_tweet_retweet ⟨[1], []⟩ twQ5 twX5 2 rfl (by simp) rfl
  rw [hstep, add_tweet_twX5]

theorem add_tweet_twP5 : add_tweet ⟨[], []⟩ twP5 = .ok ⟨[3, 2, 1], [elP5, elX5]⟩ := by
  have hstep := @add_tweet_quoted_step ⟨[], []⟩ twP5 twQ5 1 "1"
    "Mon Jan 02 15:04:05 +0000 2006" "2" "quoting a retweet" detailsEmpty
    ⟨[3, 2, 1], [elX5]⟩ rfl (by simp) rfl rfl rfl rfl rfl add_tweet_twQ5 rfl rfl
  rw [hstep]
  rfl

theorem proc_twP5 : processTweets ⟨[], []⟩ [.ok twP5] = .ok ⟨[3, 2, 1], [elP5, elX5]⟩ := by
  rw [processTweets, ebind_ok, add_tweet_twP5, ebind_ok]
  rfl

theorem write_twP5 :
    write_xml (tweetCollectionInit [.ok twP5]) none =
      (.ok ⟨[3, 2, 1], root5, [], [elX5, elP5]⟩, some root5) := by
  have h1 : processTweets ⟨(tweetCollectionInit [.ok twP5]).tweet_ids, []⟩
      (tweetCollectionInit [.ok twP5]).parsed_tweets = .ok ⟨[3, 2, 1], [elP5, elX5]⟩ :=
    proc_twP5
  rw [write_xml, h1]
  rfl

theorem inputRecords_twP5 : inputRecords [.ok twP5] = [twP5, twQ5, twX5] := by
  simp only [inputRecords, List.map, List.flatten, subRecords, twP5, twQ5, twX5, mkPlain,
    Tweet.retweeted_status, Tweet.quoted_status, List.append_nil, List.nil_append]

/-- C5 counterexample: post 1 quotes post 2, but post 2 is itself a
retweet wrapper (of post 3).  The build succeeds, the output carries
`quoted_from="2"`, the quoted post (id_str "2") exists in the input, yet no
element of the document has `id="2"`. -/
theorem c5_counterexample :
    write_xml (tweetCollectionInit [.ok twP5]) none =
      (.ok ⟨[3, 2, 1], root5, [], [elX5, elP5]⟩, some root5) ∧
    (∃ e ∈ root5.children, attrGet e.attrs "quoted_from" = some "2") ∧
    (∃ r ∈ inputRecords [.ok twP5], r.id_str = some "2") ∧
    ¬ (∃ e ∈ root5.children, attrGet e.attrs "id" = some "2") := by
  refine ⟨write_twP5, ⟨elP5, ?_, rfl⟩, ⟨twQ5, ?_, rfl⟩, ?_⟩
  · show elP5 ∈ [elX5, elP5]
    exact List.mem_cons_of_mem _ (List.mem_cons_self _ _)
  · rw [inputRecords_twP5]
    exact List.mem_cons_of_mem _ (List.mem_cons_self _ _)
  · rintro ⟨e, he, hattr⟩
    have he' : e = elX5 ∨ e = elP5 := by
      rw [show root5.children = [elX5, elP5] from rfl] at he
      simpa using he
    rcases he' with rfl | rfl
    · exact absurd hattr (by decide)
    · exact absurd hattr (by decide)

/-- C5 amended: when a fresh, non-retweet record quotes a record `q` that
is itself neither a retweet nor already seen, the run emits both the
`quoted_from` attribute and an element whose `id` is `q`'s `id_str`; the
accumulated elements persist through the rest of the pass, and the write
sort only permutes them. -/
theorem c5_amended_guarantee (s : BuildState) (t q : Tweet) (i qi : Int) (s' : BuildState)
    (hid : t.id = some i) (hfresh : i ∉ s.tweet_ids) (hrt : t.retweeted_status = none)
    (hq : t.quoted_status = some q) (hqid : q.id = some qi)
    (hqfresh : qi ∉ i :: s.tweet_ids) (hqrt : q.retweeted_status = none)
    (h : add_tweet s t = .ok s') :
    (∃ qstr, q.id_str = some qstr ∧
      (∃ e ∈ s'.output_tweets, attrGet e.attrs "quoted_from" = some qstr) ∧
      (∃ e ∈ s'.output_tweets, attrGet e.attrs "id" = some qstr)) ∧
    (∀ lines s2, processTweets s' lines = .ok s2 →
      ∃ new, s2.output_tweets = s'.output_tweets ++ new) ∧
    (∀ (l l' : List Xml), sortTweets l = .ok l' → l'.Perm l) := by
  obtain ⟨ids, ca, qid, sq, btxt, det, hids, hca, hqids, hrec, htxt, hdet, hs'⟩ :=
    add_tweet_quoted hid hfresh hrt hq h
  refine ⟨⟨qid, hqids, ?_, ?_⟩, ?_, fun l l' hs => (sortTweets_ok hs).2⟩
  · refine ⟨Xml.elem "tweet" [("id", ids), ("created_at", ca), ("quoted_from", qid)] none
      [Xml.elem "body" [] (some btxt) [], det], ?_, ?_⟩
    · rw [hs']
      simp
    · simp [Xml.attrs, attrGet]
  · cases hqq : q.quoted_status with
    | none =>
      obtain ⟨qids2, qca, qbtxt, qdet, hqids2, _, _, _, hsq⟩ :=
        add_tweet_plain hqid hqfresh hqrt hqq hrec
      rw [hqids] at hqids2
      injection hqids2 with heq2
      refine ⟨Xml.elem "tweet" [("id", qids2), ("created_at", qca)] none
        [Xml.elem "body" [] (some qbtxt) [], qdet], ?_, ?_⟩
      · rw [hs', hsq]
        simp
      · rw [← heq2]
        simp [Xml.attrs, attrGet]
    | some qq =>
      obtain ⟨qids2, qca, qqid, sq2, qbtxt, qdet, hqids2, _, _, _, _, _, hsq⟩ :=
        add_tweet_quoted hqid hqfresh hqrt hqq hrec
      rw [hqids] at hqids2
      injection hqids2 with heq2
      refine ⟨Xml.elem "tweet" [("id", qids2), ("created_at", qca), ("quoted_from", qqid)] none
        [Xml.elem "body" [] (some qbtxt) [], qdet], ?_, ?_⟩
      · rw [hs', hsq]
        simp
      · rw [← heq2]
        simp [Xml.attrs, attrGet]
  · intro lines s2 hproc
    obtain ⟨_, hext, _, _⟩ := processTweets_inv lines _ s2 hproc
    exact hext

def twQw : Tweet := mkPlain 21 "21" "Mon Jan 02 12:00:00 +0000 2006" "quoted original"

def elQw : Xml := mkPlainElem "21" "Mon Jan 02 12:00:00 +0000 2006" "quoted original"

/-- Post 20 quotes the plain post `twQw`. -/
def twPw : Tweet :=
  Tweet.mk (some 20) (some "20") (some "Mon Jan 02 15:04:05 +0000 2006")
    (some "the quoting") (some false) none none (some twQw) (some uAlice) (some entEmpty)

def elPw : Xml :=
  Xml.elem "tweet"
    [("id", "20"), ("created_at", "Mon Jan 02 15:04:05 +0000 2006"), ("quoted_from", "21")]
    none [Xml.elem "body" [] (some "the quoting") [], detailsEmpty]

theorem add_tweet_twQw : add_tweet ⟨[20], []⟩ twQw = .ok ⟨[21, 20], [elQw]⟩ := by
  have hstep := @add_tweet_plain_step ⟨[20], []⟩ twQw 21 "21"
    "Mon Jan 02 12:00:00 +0000 2006" "quoted original" detailsEmpty
    rfl (by simp) rfl rfl rfl rfl rfl rfl
  rw [hstep]
  rfl

theorem add_tweet_twPw : add_tweet ⟨[], []⟩ twPw = .ok ⟨[21, 20], [elPw, elQw]⟩ := by
  have hstep := @add_tweet_quoted_step ⟨[], []⟩ twPw twQw 20 "20"
    "Mon Jan 02 15:04:05 +0000 2006" "21" "the quoting" detailsEmpty
    ⟨[21, 20], [elQw]⟩ rfl (by simp) rfl rfl rfl rfl rfl add_tweet_twQw rfl rfl
  rw [hstep]
  rfl

theorem c5_amended_witness :
    (∃ qstr, twQw.id_str = some qstr ∧
      (∃ e ∈ (⟨[21, 20], [elPw, elQw]⟩ : BuildState).output_tweets,
        attrGet e.attrs "quoted_from" = some qstr) ∧
      (∃ e ∈ (⟨[21, 20], [elPw, elQw]⟩ : BuildState).output_tweets,
        attrGet e.attrs "id" = some qstr)) ∧
    (∀ lines s2, processTweets (⟨[21, 20], [elPw, elQw]⟩ : BuildState) lines = .ok s2 →
      ∃ new, s2.output_tweets = (⟨[21, 20], [elPw, elQw]⟩ : BuildState).output_tweets ++ new) ∧
    (∀ (l l' : List Xml), sortTweets l = .ok l' → l'.Perm l) :=
  c5_amended_guarantee ⟨[], []⟩ twPw twQw 20 21 ⟨[21, 20], [elPw, elQw]⟩ rfl (by simp) rfl
    rfl rfl (by decide) rfl add_tweet_twPw

/-- Record update used to state that a field is ignored. -/
def Tweet.withText (t : Tweet) (tx : Option String) : Tweet :=
  match t with
  | .mk i is ca _ tr ex rt q u en => .mk i is ca tx tr ex rt q u en

/-- Record update used to state that a field is ignored. -/
def Tweet.withEntities (t : Tweet) (en : Option TEntities) : Tweet :=
  match t with
  | .mk i is ca tx tr ex rt q u _ => .mk i is ca tx tr ex rt q u en

/-- Record update used to state that a field is ignored. -/
def Tweet.withExtended (t : Tweet) (ex : Option TExtended) : Tweet :=
  match t with
  | .mk i is ca tx tr _ rt q u en => .mk i is ca tx tr ex rt q u en

theorem add_tweet_congr {s : BuildState} {t t' : Tweet}
    (h1 : t'.id = t.id) (h2 : t'.id_str = t.id_str) (h3 : t'.created_at = t.created_at)
    (h4 : t'.retweeted_status = t.retweeted_status)
    (h5 : t'.quoted_status = t.quoted_status)
    (h6 : tweetText t' = tweetText t) (h7 : add_details t' = add_details t) :
    add_tweet s t' = add_tweet s t := by
  rw [add_tweet.eq_def]
  conv_rhs => rw [add_tweet.eq_def]
  rw [h1, h2, h3, h4, h5, h6, h7]

/-- C6: when a record produces an element, a truthy `truncated` selects
the extended full text (and the top-level `text`/`entities` are ignored);
a falsy `truncated` selects the top-level text (and `extended_tweet` is
ignored); the element's body child holds the selected text. -/
theorem c6_truncation_dispatch (s : BuildState) (t : Tweet) (i : Int) (s' : BuildState)
    (hid : t.id = some i) (hfresh : i ∉ s.tweet_ids) (hrt : t.retweeted_status = none)
    (hq : t.quoted_status = none) (h : add_tweet s t = .ok s') :
    (∀ ext, t.truncated = some true → t.extended_tweet = some ext →
      (∃ ftxt, ext.full_text = some ftxt ∧ tweetText t = .ok ftxt) ∧
      (∀ tx en, add_tweet s ((t.withText tx).withEntities en) = add_tweet s t)) ∧
    (t.truncated = some false →
      (∃ txt, t.text = some txt ∧ tweetText t = .ok txt) ∧
      (∀ ex, add_tweet s (t.withExtended ex) = add_tweet s t)) ∧
    (∃ e rest btxt, s'.output_tweets = s.output_tweets ++ e :: rest ∧
      tweetText t = .ok btxt ∧
      e.children.head? = some (Xml.elem "body" [] (some btxt) [])) := by
  obtain ⟨ids, ca, btxt, det, hids, hca, htxt, hdet, hs'⟩ := add_tweet_plain hid hfresh hrt hq h
  refine ⟨?_, ?_, ⟨Xml.elem "tweet" [("id", ids), ("created_at", ca)] none
    [Xml.elem "body" [] (some btxt) [], det], [], btxt, by rw [hs'], htxt, rfl⟩⟩
  · intro ext htr hext
    constructor
    · cases hft : ext.full_text with
      | none =>
        have hbad : tweetText t = .error .keyError := by
          simp [tweetText, htr, hext, hft, getKey, ebind]
        rw [hbad] at htxt
        cases htxt
      | some ftxt =>
        have hok : tweetText t = .ok ftxt := by
          simp [tweetText, htr, hext, hft, getKey, ebind]
        have heq : (Except.ok ftxt : Except PyErr String) = .ok btxt := by rw [← hok, htxt]
        injection heq with heq2
        exact ⟨btxt, by rw [heq2], htxt⟩
    · intro tx en
      apply add_tweet_congr
      · cases t; rfl
      · cases t; rfl
      · cases t; rfl
      · cases t; rfl
      · cases t; rfl
      · cases t with
        | mk a b c d tr ex rt qq u en0 =>
          simp only [Tweet.truncated] at htr
          subst htr
          rfl
      · cases t with
        | mk a b c d tr ex rt qq u en0 =>
          simp only [Tweet.truncated] at htr
          subst htr
          rfl
  · intro htr
    constructor
    · cases htt : t.text with
      | none =>
        have hbad : tweetText t = .error .keyError := by
          simp [tweetText, htr, htt, getKey, ebind]
        rw [hbad] at htxt
        cases htxt
      | some txt =>
        have hok : tweetText t = .ok txt := by
          simp [tweetText, htr, htt, getKey, ebind]
        have heq : (Except.ok txt : Except PyErr String) = .ok btxt := by rw [← hok, htxt]
        injection heq with heq2
        exact ⟨btxt, by rw [heq2], htxt⟩
    · intro ex
      apply add_tweet_congr
      · cases t; rfl
      · cases t; rfl
      · cases t; rfl
      · cases t; rfl
      · cases t; rfl
      · cases t with
        | mk a b c d tr ex0 rt qq u en0 =>
          simp only [Tweet.truncated] at htr
          subst htr
          rfl
      · cases t with
        | mk a b c d tr ex0 rt qq u en0 =>
          simp only [Tweet.truncated] at htr
          subst htr
          rfl

/-- A truncated record: the authoritative text lives in `extended_tweet`. -/
def twT : Tweet :=
  Tweet.mk (some 30) (some "30") (some "Mon Jan 02 15:04:05 +0000 2006") (some "short")
    (some true) (some ⟨some "hello world foo", some entEmpty⟩) none none (some uAlice)
    (some entEmpty)

def elT : Xml :=
  Xml.elem "tweet" [("id", "30"), ("created_at", "Mon Jan 02 15:04:05 +0000 2006")] none
    [Xml.elem "body" [] (some "hello world foo") [], detailsEmpty]

theorem add_tweet_twT : add_tweet ⟨[], []⟩ twT = .ok ⟨[30], [elT]⟩ := by
  have hstep := @add_tweet_plain_step ⟨[], []⟩ twT 30 "30"
    "Mon Jan 02 15:04:05 +0000 2006" "hello world foo" detailsEmpty
    rfl (by simp) rfl rfl rfl rfl rfl rfl
  rw [hstep]
  rfl

theorem c6_witness :
    ((∀ ext, twT.truncated = some true → twT.extended_tweet = some ext →
      (∃ ftxt, ext.full_text = some ftxt ∧ tweetText twT = .ok ftxt) ∧
      (∀ tx en, add_tweet ⟨[], []⟩ ((twT.withText tx).withEntities en) =
        add_tweet ⟨[], []⟩ twT)) ∧
    (twT.truncated = some false →
      (∃ txt, twT.text = some txt ∧ tweetText twT = .ok txt) ∧
      (∀ ex, add_tweet ⟨[], []⟩ (twT.withExtended ex) = add_tweet ⟨[], []⟩ twT)) ∧
    (∃ e rest btxt, (⟨[30], [elT]⟩ : BuildState).output_tweets =
      (⟨[], []⟩ : BuildState).output_tweets ++ e :: rest ∧
      tweetText twT = .ok btxt ∧
      e.children.head? = some (Xml.elem "body" [] (some btxt) []))) ∧
    (splitWs "hello world foo").length = 3 :=
  ⟨c6_truncation_dispatch ⟨[], []⟩ twT 30 ⟨[30], [elT]⟩ rfl (by simp) rfl rfl add_tweet_twT,
   by decide⟩

theorem iterTag_elem (t tag : String) (a : List (String × String)) (tx : Option String)
    (cs : List Xml) :
    Xml.iterTag t (Xml.elem tag a tx cs) =
      (if tag = t then [Xml.elem tag a tx cs] else []) ++ (cs.map (Xml.iterTag t)).flatten := by
  rw [Xml.iterTag, List.attach_map_val]

theorem count_words_of_present : ∀ (l : List Xml), (∀ b ∈ l, b.text ≠ none) →
    emapList (fun body => match body.text with
      | none => Except.error PyErr.attributeError
      | some s => .ok (splitWs s).length) l =
    .ok (l.map (fun body => match body.text with
      | none => 0
      | some s => (splitWs s).length)) := by
  intro l
  induction l with
  | nil => intro _; rfl
  | cons b rest ih =>
    intro hall
    cases hb : b.text with
    | none => exact absurd hb (hall b (List.mem_cons_self b rest))
    | some sb =>
      simp only [emapList, hb, ebind_ok, List.map_cons,
        ih (fun x hx => hall x (List.mem_cons_of_mem b hx))]

/-- C7 amended: when every body node in the document has present text, the
Word Aggregator returns the sum over every body node of its
whitespace-token count (empty text contributing zero); a body node with
absent text instead raises an `AttributeError`. -/
theorem c7_word_count_amended (tree : Xml)
    (h : ∀ b ∈ tree.iterTag "body", b.text ≠ none) :
    wordCountMain tree = .ok (specWordTotal tree) := by
  rw [wordCountMain, count_words, count_words_of_present (tree.iterTag "body") h, ebind_ok,
    specWordTotal]

/-- A document whose single body node has absent text (as lxml parses
`<body/>`). -/
def treeBad : Xml :=
  Xml.elem "tweets" [] none [Xml.elem "tweet" [] none [Xml.elem "body" [] none []]]

theorem iter_treeBad : treeBad.iterTag "body" = [Xml.elem "body" [] none []] := by
  simp [iterTag_elem, treeBad]

/-- C7 counterexample: on a document with a body node of absent text the
module raises `AttributeError` (from `None.split()`) instead of counting
that node as zero, so its result is not the spec's total. -/
theorem c7_word_count_counterexample :
    wordCountMain treeBad = .error .attributeError ∧
    ¬ (wordCountMain treeBad = .ok (specWordTotal treeBad)) := by
  have h1 : wordCountMain treeBad = .error .attributeError := by
    rw [wordCountMain, count_words, iter_treeBad]
    rfl
  refine ⟨h1, ?_⟩
  rw [h1]
  intro hcontra
  cases hcontra

/-- Two body nodes, one nested deeper, one with empty text. -/
def treeGood : Xml :=
  Xml.elem "tweets" [] none
    [Xml.elem "tweet" [] none [Xml.elem "body" [] (some "hello world") []],
     Xml.elem "body" [] (some "") []]

theorem iter_treeGood : treeGood.iterTag "body" =
    [Xml.elem "body" [] (some "hello world") [], Xml.elem "body" [] (some "") []] := by
  simp [iterTag_elem, treeGood]

theorem c7_witness :
    wordCountMain treeGood = .ok (specWordTotal treeGood) ∧ specWordTotal treeGood = 2 := by
  constructor
  · refine c7_word_count_amended treeGood ?_
    rw [iter_treeGood]
    intro b hb
    have hb2 : b = Xml.elem "body" [] (some "hello world") [] ∨
        b = Xml.elem "body" [] (some "") [] := by simpa using hb
    rcases hb2 with rfl | rfl
    · intro hcontra; cases hcontra
    · intro hcontra; cases hcontra
  · rw [specWordTotal, iter_treeGood]
    decide

theorem c10_witness :
    (⟨[1, 2], rootBA, [], [elA, elB]⟩ : TCState).xml_root = rootBA ∧
    (∃ new, rootBA.children =
      (tweetCollectionInit [.ok twB, .ok twA]).xml_root.children ++ new) ∧
    (∀ file2 st2 root2,
      write_xml (⟨[1, 2], rootBA, [], [elA, elB]⟩ : TCState) file2 = (.ok st2, some root2) →
      ∃ more, root2.children = rootBA.children ++ more) :=
  c10_root_accumulates (tweetCollectionInit [.ok twB, .ok twA]) none
    ⟨[1, 2], rootBA, [], [elA, elB]⟩ rootBA write_twBA
